import Mathlib

/-!
Verification of the lock-free data-path core of the demo HFT system.

The C++ sources are shallowly embedded:
* `double` values are modelled as exact rationals (`ℚ`).  Every claim proved
  here depends only on ring arithmetic and order comparisons at values where
  binary64 and exact arithmetic agree, never on rounding behaviour.  The one
  place where an IEEE-specific value is essential — `std::numeric_limits<double>::max()`
  in `OrderBook::Snapshot::best_ask` — is embedded as the exact rational value
  of `DBL_MAX`, and an extended type `Dbl` distinguishes finite doubles from
  IEEE `+∞`.
* machine integers are `ℕ` with explicit `% 2^w` where wrap-around can occur;
  index masking `x & (SIZE-1)` (all capacities are compile-time powers of two,
  enforced by `static_assert`) is written `x % n`.
* the single-threaded (sequential) semantics of each operation is embedded;
  `compare_exchange` always succeeds in a sequential execution.
* fallible probe/retry loops are given explicit fuel matching the source
  bound (`SIZE` iterations for the hash-map probe, caller-chosen for the
  unbounded MPSC retry loop, which a sequential run decides in one step).
-/

namespace HFT

/-! ## SPSC ring buffer — `CircularBuffer<T, Capacity>` (circular_buffer.h)

State is `head_`, `tail_` (always `< n`, since every store is masked) and the
backing array, modelled as a total function from index to `T`. -/

structure SpscState (T : Type) where
  head : ℕ
  tail : ℕ
  buf : ℕ → T

/-- `CircularBuffer() : head_(0), tail_(0)`; the array contents start
unspecified, represented by a default element. -/
def spscInit (T : Type) (d : T) : SpscState T := ⟨0, 0, fun _ => d⟩

/-- `CircularBuffer::push` (lines 21–33): fails iff `(tail+1) % n == head`,
otherwise writes the slot at `tail` and advances `tail`. -/
def spscPush (n : ℕ) (s : SpscState T) (x : T) : Option (SpscState T) :=
  let next_tail := (s.tail + 1) % n
  if next_tail = s.head then none
  else some ⟨s.head, next_tail, Function.update s.buf s.tail x⟩

/-- `CircularBuffer::pop` (lines 36–47): fails iff `head == tail`, otherwise
reads the slot at `head` and advances `head`. -/
def spscPop (n : ℕ) (s : SpscState T) : Option (T × SpscState T) :=
  if s.head = s.tail then none
  else some (s.buf s.head, ⟨(s.head + 1) % n, s.tail, s.buf⟩)

/-- The logical queue contents: the `(tail - head) mod n` values starting at
`head`, in pop order. -/
def spscContents (n : ℕ) (s : SpscState T) : List T :=
  (List.range ((s.tail + n - s.head) % n)).map (fun i => s.buf ((s.head + i) % n))

/-- A sequential trace operation on the SPSC ring. -/
inductive SpscOp (T : Type) where
  | push (x : T)
  | pop

/-- Run a list of operations; returns the final state, the list of values
accepted by successful pushes (in order) and the list of values returned by
successful pops (in order).  Failed operations leave the state unchanged, as
in the source. -/
def spscRun (n : ℕ) : List (SpscOp T) → SpscState T → SpscState T × List T × List T
  | [], s => (s, [], [])
  | SpscOp.push x :: ops, s =>
      match spscPush n s x with
      | some s' =>
          let r := spscRun n ops s'
          (r.1, x :: r.2.1, r.2.2)
      | none => spscRun n ops s
  | SpscOp.pop :: ops, s =>
      match spscPop n s with
      | some (v, s') =>
          let r := spscRun n ops s'
          (r.1, r.2.1, v :: r.2.2)
      | none => spscRun n ops s

/-- Well-formedness: both indices in range (established by `spscInit`,
preserved because every store is masked). -/
def SpscWF (n : ℕ) (s : SpscState T) : Prop := s.head < n ∧ s.tail < n

/-- Push `j` values (drawn from `vals`) one after another into a fresh ring,
keeping the state unchanged on a failed push, exactly as `push` leaves the
buffer untouched when it returns `false`. -/
def spscPushes (n : ℕ) (d : T) (vals : ℕ → T) : ℕ → SpscState T
  | 0 => spscInit T d
  | j + 1 =>
      let s := spscPushes n d vals j
      match spscPush n s (vals j) with
      | some s' => s'
      | none => s

/-! ## MPSC ring buffer — `MPSCCircularBuffer<T, Capacity>` (circular_buffer.h)

Vyukov-style bounded queue.  `head_`/`tail_` are free-running `uint64`
counters (`size_t`), masked only when indexing, so they are modelled with an
explicit `% 2^64`.  The `diff` computation casts both operands through
`intptr_t`, i.e. reinterprets the `uint64` values as two's-complement signed
integers before subtracting. -/

/-- `2^64`, the modulus of `size_t` / `uint64_t` arithmetic. -/
def U64 : ℕ := 2 ^ 64

/-- `static_cast<intptr_t>(x)` for a 64-bit unsigned `x`: two's-complement
reinterpretation. -/
def toSigned (x : ℕ) : ℤ := if x < 2 ^ 63 then (x : ℤ) else (x : ℤ) - 2 ^ 64

structure MpscState (T : Type) where
  head : ℕ
  tail : ℕ
  seqs : ℕ → ℕ
  buf : ℕ → Option T

/-- `MPSCCircularBuffer::MPSCCircularBuffer` (lines 76–80): head and tail
start at 0 and EVERY slot's sequence field is stored as 0
(`entry.sequence.store(0, ...)`); the payloads start unwritten. -/
def mpscInit (T : Type) : MpscState T := ⟨0, 0, fun _ => 0, fun _ => none⟩

/-- One iteration of the `push` retry loop (lines 83–107), sequentially: the
CAS on `tail_` succeeds whenever attempted.  `diff == 0` claims the slot,
writes the payload and publishes `sequence = tail + 1`; `diff < 0` reports
the buffer full; `diff > 0` reloads `tail_` and retries (fuel bounds the
retries; a sequential run never takes that branch more than once). -/
def mpscPushLoop (n : ℕ) (x : T) (s : MpscState T) : ℕ → ℕ → Option (Bool × MpscState T)
  | 0, _ => none
  | fuel + 1, tail =>
      let pos := tail % n
      let seq := s.seqs pos
      let diff := toSigned seq - toSigned tail
      if diff = 0 then
        some (true, { s with tail := (tail + 1) % U64,
                             seqs := Function.update s.seqs pos ((tail + 1) % U64),
                             buf := Function.update s.buf pos (some x) })
      else if diff < 0 then some (false, s)
      else mpscPushLoop n x s fuel s.tail

/-- `MPSCCircularBuffer::push`: enter the loop with the relaxed-loaded
`tail_`. -/
def mpscPush (n fuel : ℕ) (s : MpscState T) (x : T) : Option (Bool × MpscState T) :=
  mpscPushLoop n x s fuel s.tail

/-- Two consecutive pushes; returns the pair of their boolean results. -/
def mpscPush2 (n fuel : ℕ) (s : MpscState T) (x y : T) : Option (Bool × Bool) := do
  let r1 ← mpscPush n fuel s x
  let r2 ← mpscPush n fuel r1.2 y
  pure (r1.1, r2.1)

/-! ## Lock-free hash map — `LockFreeHashMap<const char*, V, Capacity>`
(hashmap.h, C-string specialization)

Keys are NUL-terminated ASCII strings, modelled as lists of (non-zero) byte
values.  A slot stores the 64-bit hash tag (0 = EMPTY, 1 = TOMBSTONE), the
stored key bytes (`char key[16]`, written by `strncpy(key, k, 15)`, i.e. the
first 15 bytes of the inserted key) and the value.  `strcmp == 0` between two
NUL-free byte strings is exactly list equality.  Index masking `h & (SIZE-1)`
is `h % n` for the power-of-two capacity. -/

structure HEntry (V : Type) where
  hash : ℕ
  key : List ℕ
  val : V

/-- The table: a slot per index (only indices `< n` are ever probed). -/
def HState (V : Type) := ℕ → HEntry V

/-- All slots EMPTY, as the constructor leaves them (lines 136–140). -/
def hmEmpty (V : Type) (d : V) : HState V := fun _ => ⟨0, [], d⟩

def fnvOffset : ℕ := 14695981039346656037
def fnvPrime : ℕ := 1099511628211

/-- `hash_string` (lines 201–212): FNV-1a over the bytes, in `uint64`
arithmetic. -/
def hash_string (key : List ℕ) : ℕ :=
  key.foldl (fun h c => ((h ^^^ c) * fnvPrime) % U64) fnvOffset

/-- The EMPTY/TOMBSTONE remap performed by both `insert` and `find`
(lines 143–146, 174–177). -/
def remapHash (h : ℕ) : ℕ := if h = 0 ∨ h = 1 then 2 else h

/-- The linear-probe loop of `insert` (lines 150–168): claim the first EMPTY
slot (storing the first 15 key bytes, as `strncpy` does) or update the value
of a slot whose tag and key match; at most `SIZE` probes. -/
def insertLoop (n h : ℕ) (key : List ℕ) (v : V) :
    ℕ → ℕ → HState V → Bool × HState V
  | 0, _, s => (false, s)
  | fuel + 1, idx, s =>
      if (s idx).hash = 0 then
        (true, Function.update s idx ⟨h, key.take 15, v⟩)
      else if (s idx).hash = h ∧ (s idx).key = key then
        (true, Function.update s idx ⟨(s idx).hash, (s idx).key, v⟩)
      else insertLoop n h key v fuel ((idx + 1) % n) s

/-- The linear-probe loop of `find` (lines 181–193): stop with null at an
EMPTY slot, return the value on a tag+key match, else keep probing; at most
`SIZE` probes. -/
def findLoop (n h : ℕ) (key : List ℕ) : ℕ → ℕ → HState V → Option V
  | 0, _, _ => none
  | fuel + 1, idx, s =>
      if (s idx).hash = 0 then none
      else if (s idx).hash = h ∧ (s idx).key = key then some (s idx).val
      else findLoop n h key fuel ((idx + 1) % n) s

/-- `LockFreeHashMap::insert` for C-string keys (lines 142–171). -/
def hmInsert (n : ℕ) (s : HState V) (key : List ℕ) (v : V) : Bool × HState V :=
  insertLoop n (remapHash (hash_string key)) key v n (remapHash (hash_string key) % n) s

/-- `LockFreeHashMap::find` for C-string keys (lines 173–196); `some v`
models a non-null pointer whose dereference reads `v`. -/
def hmFind (n : ℕ) (s : HState V) (key : List ℕ) : Option V :=
  findLoop n (remapHash (hash_string key)) key n (remapHash (hash_string key) % n) s

/-! ## Order book — `OrderBook` (order_book.h / order_book.cpp)

Prices and quantities are `double`, modelled as exact rationals.  The
`sequence` counters are `uint64`, hence kept `% 2^64`; `depth` is a `uint32`
that only ever holds `level + 1 ≤ 10`. -/

structure PriceLevel where
  price : ℚ
  quantity : ℚ
  order_count : ℕ
deriving DecidableEq

def emptyLevel : PriceLevel := ⟨0, 0, 0⟩

structure BookSide where
  levels : Fin 10 → PriceLevel
  depth : ℕ
  seq : ℕ

/-- A side of a freshly constructed book: all levels `reset()`, zero depth
and sequence (order_book.cpp lines 7–16, order_book.h lines 38–42). -/
def freshSide : BookSide := ⟨fun _ => emptyLevel, 0, 0⟩

structure OrderBookState where
  bids : BookSide
  asks : BookSide

def freshBook : OrderBookState := ⟨freshSide, freshSide⟩

/-- `OrderBook::update_level` (order_book.cpp lines 28–44): overwrite price
and quantity (`order_count` is NOT written), raise `depth` to `level + 1`
when needed, and increment `sequence`. -/
def updateLevel (b : BookSide) (level : Fin 10) (price quantity : ℚ) : BookSide :=
  { levels := Function.update b.levels level
      { price := price, quantity := quantity,
        order_count := (b.levels level).order_count },
    depth := if b.depth ≤ level.val then level.val + 1 else b.depth,
    seq := (b.seq + 1) % U64 }

/-- `OrderBook::update_bid` (lines 18–21): no-op when `level ≥ MAX_DEPTH`. -/
def update_bid (bk : OrderBookState) (level : ℕ) (price quantity : ℚ) : OrderBookState :=
  if h : level < 10 then { bk with bids := updateLevel bk.bids ⟨level, h⟩ price quantity }
  else bk

/-- `OrderBook::update_ask` (lines 23–26): no-op when `level ≥ MAX_DEPTH`. -/
def update_ask (bk : OrderBookState) (level : ℕ) (price quantity : ℚ) : OrderBookState :=
  if h : level < 10 then { bk with asks := updateLevel bk.asks ⟨level, h⟩ price quantity }
  else bk

structure Snapshot where
  bids : Fin 10 → PriceLevel
  asks : Fin 10 → PriceLevel
  bid_depth : ℕ
  ask_depth : ℕ
  bid_sequence : ℕ
  ask_sequence : ℕ
  timestamp : ℕ

/-- `OrderBook::get_snapshot` (lines 46–67): copy sequences, depths and all
levels; `now` stands for the monotonic clock read stamped into the copy. -/
def get_snapshot (bk : OrderBookState) (now : ℕ) : Snapshot :=
  ⟨bk.bids.levels, bk.asks.levels, bk.bids.depth, bk.asks.depth,
   bk.bids.seq, bk.asks.seq, now⟩

/-- The exact rational value of `std::numeric_limits<double>::max()`
(binary64: significand `2^53 - 1`, exponent `971`). -/
def dblMax : ℚ := (2 ^ 53 - 1) * 2 ^ 971

/-- `Snapshot::best_bid` (order_book.h line 61). -/
def Snapshot.best_bid (s : Snapshot) : ℚ :=
  if 0 < s.bid_depth then (s.bids 0).price else 0

/-- `Snapshot::best_ask` (order_book.h line 62): note the source returns
`std::numeric_limits<double>::max()`, a finite value, on an empty ask side. -/
def Snapshot.best_ask (s : Snapshot) : ℚ :=
  if 0 < s.ask_depth then (s.asks 0).price else dblMax

/-- The IEEE double domain contains a genuine `+∞` distinct from every
finite value; `Dbl` distinguishes the two so the spec's "+∞" is statable. -/
inductive Dbl where
  | fin (q : ℚ)
  | posInf
deriving DecidableEq

/-- `Snapshot::best_ask`, viewed in the IEEE double domain: the source
returns `DBL_MAX` (finite) on an empty ask side, never the IEEE `+∞`. -/
def Snapshot.best_ask_ieee (s : Snapshot) : Dbl :=
  if 0 < s.ask_depth then Dbl.fin (s.asks 0).price else Dbl.fin dblMax

/-- `Snapshot::mid_price` (order_book.h line 63). -/
def Snapshot.mid_price (s : Snapshot) : ℚ := (s.best_bid + s.best_ask) / 2

/-- `Snapshot::spread` (order_book.h line 64). -/
def Snapshot.spread (s : Snapshot) : ℚ := s.best_ask - s.best_bid

/-- `Snapshot::spread_bps` (order_book.h lines 65–68): guarded by
`mid > 0`. -/
def Snapshot.spread_bps (s : Snapshot) : ℚ :=
  if 0 < s.mid_price then s.spread / s.mid_price * 10000 else 0

/-- A level update as dispatched by the market-data path. -/
inductive BookUpd where
  | bid (level : ℕ) (price quantity : ℚ)
  | ask (level : ℕ) (price quantity : ℚ)

def applyUpd (bk : OrderBookState) : BookUpd → OrderBookState
  | BookUpd.bid l p q => update_bid bk l p q
  | BookUpd.ask l p q => update_ask bk l p q

/-- A book reachable from construction by a sequence of level updates. -/
def runUpds (us : List BookUpd) : OrderBookState := us.foldl applyUpd freshBook

/-! ## Market-making strategy — `MarketMakingStrategy` (strategy.h /
strategy.cpp)

`0.8` appears in the source as a double literal; all claims proved here are
away from that gating boundary, so it is embedded as the exact `4/5`. -/

structure StratParams where
  spread_target : ℚ
  quote_size : ℚ
  max_position : ℚ
  skew_factor : ℚ
  edge : ℚ

/-- `MarketMakingStrategy::calculate_fair_value` (strategy.cpp lines 53–59):
`skew = -position / max_position * skew_factor; return mid * (1 + skew)`. -/
def calculate_fair_value (params : StratParams) (mid position : ℚ) : ℚ :=
  mid * (1 + -position / params.max_position * params.skew_factor)

structure Quote where
  price : ℚ
  quantity : ℚ
deriving DecidableEq

/-- `MarketMakingStrategy::update_quotes` (strategy.cpp lines 61–124),
reduced to its decision content: `none` when skipped (non-positive mid, or
position at/over limit); otherwise the optionally-emitted bid and ask
quotes with their limit prices and the configured quote size. -/
def update_quotes (params : StratParams) (position : ℚ) (s : Snapshot) :
    Option (Option Quote × Option Quote) :=
  let mid := s.mid_price
  if mid ≤ 0 then none
  else if params.max_position ≤ |position| then none
  else
    let fair_value := calculate_fair_value params mid position
    let half_spread := fair_value * params.spread_target / 2
    let bid_price := fair_value - half_spread - params.edge * fair_value
    let ask_price := fair_value + half_spread + params.edge * fair_value
    some
      (if position < params.max_position * (4 / 5) then
         some ⟨bid_price, params.quote_size⟩ else none,
       if -(params.max_position * (4 / 5)) < position then
         some ⟨ask_price, params.quote_size⟩ else none)

/-- The parameters of scenario 5 of the spec (`spread_target = 0.0002`,
`quote_size = 100`, `max_position = 1000`, `skew_factor = 0.5`,
`edge = 0.0001`). -/
def demoParams : StratParams := ⟨2 / 10000, 100, 1000, 1 / 2, 1 / 10000⟩

/-- A snapshot with best bid = best ask = 100, hence `mid = 100`. -/
def demoSnap : Snapshot :=
  ⟨fun _ => ⟨100, 500, 0⟩, fun _ => ⟨100, 400, 0⟩, 1, 1, 1, 1, 0⟩

/-! ## Risk-gated order submitter — `OrderManager` (order_manager.h /
order_manager.cpp)

`position_`/`notional_` are atomic doubles (exact rationals here); the rate
counter is a `uint32`, the last-second timestamp a `uint64` of nanoseconds.
`submit_order` additionally depends on the wall clock (`now`, in ns) and on
whether the TCP send succeeds (`send_ok`). -/

inductive OrderSide where
  | buy
  | sell
deriving DecidableEq

structure OrderReq where
  side : OrderSide
  price : ℚ
  quantity : ℚ

structure RiskLimits where
  max_order_size : ℚ
  max_position : ℚ
  max_notional : ℚ
  max_orders_per_second : ℕ

structure RiskState where
  position : ℚ
  notional : ℚ
  orders_this_second : ℕ
  last_second_timestamp : ℕ
deriving DecidableEq

/-- Member initializers of `OrderManager` (order_manager.h lines 50–55). -/
def freshRiskState : RiskState := ⟨0, 0, 0, 0⟩

/-- Which branch of `submit_order` produced the boolean result (the
source logs a distinct message per rejection). -/
inductive SubmitResult where
  | rejOrderSize
  | rejPositionLimit
  | rejRateLimit
  | rejNotionalLimit
  | sent
  | sendFailed
deriving DecidableEq

/-- `OrderManager::check_order_size` (lines 68–70). -/
def check_order_size (lim : RiskLimits) (size : ℚ) : Bool :=
  decide (0 < size ∧ size ≤ lim.max_order_size)

/-- The projected position of `check_position_limit` (lines 72–83). -/
def projected_position (s : RiskState) (o : OrderReq) : ℚ :=
  match o.side with
  | OrderSide.buy => s.position + o.quantity
  | OrderSide.sell => s.position - o.quantity

/-- `OrderManager::check_position_limit` (lines 72–83). -/
def check_position_limit (lim : RiskLimits) (s : RiskState) (o : OrderReq) : Bool :=
  decide (|projected_position s o| ≤ lim.max_position)

/-- `OrderManager::update_rate_limiter` (lines 104–115): `uint64`
subtraction `now - last` wraps modulo `2^64`; when it exceeds one second in
nanoseconds the counter is reset and the timestamp advanced. -/
def update_rate_limiter (now : ℕ) (s : RiskState) : RiskState :=
  if 1000000000 < (now + U64 - s.last_second_timestamp) % U64 then
    { s with orders_this_second := 0, last_second_timestamp := now }
  else s

/-- `OrderManager::check_rate_limit` (lines 85–95): note that on success the
counter has already been incremented (`fetch_add`) before any later check
runs. -/
def check_rate_limit (lim : RiskLimits) (now : ℕ) (s : RiskState) : Bool × RiskState :=
  let s1 := update_rate_limiter now s
  if lim.max_orders_per_second ≤ s1.orders_this_second then (false, s1)
  else (true, { s1 with orders_this_second := (s1.orders_this_second + 1) % 2 ^ 32 })

/-- `OrderManager::check_notional_limit` (lines 97–102). -/
def check_notional_limit (lim : RiskLimits) (s : RiskState) (o : OrderReq) : Bool :=
  decide (s.notional + o.price * o.quantity ≤ lim.max_notional)

/-- `OrderManager::submit_order` (lines 16–59): the four checks in order,
then the send; on a successful send the position is updated assuming an
immediate fill.  `notional_` is never written. -/
def submit_order (lim : RiskLimits) (now : ℕ) (send_ok : Bool) (s : RiskState)
    (o : OrderReq) : SubmitResult × RiskState :=
  if !check_order_size lim o.quantity then (SubmitResult.rejOrderSize, s)
  else if !check_position_limit lim s o then (SubmitResult.rejPositionLimit, s)
  else
    let rl := check_rate_limit lim now s
    if !rl.1 then (SubmitResult.rejRateLimit, rl.2)
    else if !check_notional_limit lim rl.2 o then (SubmitResult.rejNotionalLimit, rl.2)
    else if send_ok then (SubmitResult.sent, { rl.2 with position := projected_position rl.2 o })
    else (SubmitResult.sendFailed, rl.2)

/-! ## Slab object pool — `MemoryPool<T, PoolSize>` (memory_pool.h)

Single-mutator semantics (the spec fixes the pool to a single mutator).
A returned pointer is identified with its slot index.  `free_count_` stays
within `0..PoolSize` in every non-misuse execution, far from `size_t`
wrap-around. -/

structure PoolState where
  free_count : ℕ
  free_list : ℕ → ℕ
  allocated : ℕ → Bool

/-- `MemoryPool::MemoryPool` (lines 16–22): free list holds `0..P-1`, count
is `P`, no slot allocated. -/
def poolInit (P : ℕ) : PoolState := ⟨P, fun i => i, fun _ => false⟩

/-- `MemoryPool::allocate` (lines 34–56), single-mutator: pop the top free
index, mark it allocated, construct in place. -/
def pool_allocate (s : PoolState) : Option (ℕ × PoolState) :=
  if 0 < s.free_count then
    let idx := s.free_list (s.free_count - 1)
    some (idx, { free_count := s.free_count - 1, free_list := s.free_list,
                 allocated := Function.update s.allocated idx true })
  else none

/-- `MemoryPool::deallocate` (lines 59–75), single-mutator, non-null
pointer: destroy, clear the allocated flag, push the index back. -/
def pool_deallocate (s : PoolState) (idx : ℕ) : PoolState :=
  { free_count := s.free_count + 1,
    free_list := Function.update s.free_list s.free_count idx,
    allocated := Function.update s.allocated idx false }

/-- `MemoryPool::available` (lines 78–80). -/
def pool_available (s : PoolState) : ℕ := s.free_count

/-- `k` successive allocations, all required to succeed (`none` as soon as
one returns null), collecting the returned slot indices. -/
def poolAllocN : ℕ → PoolState → Option (List ℕ × PoolState)
  | 0, s => some ([], s)
  | k + 1, s =>
      match pool_allocate s with
      | some (i, s') => (poolAllocN k s').map (fun r => (i :: r.1, r.2))
      | none => none

/-- Deallocate a list of pointers one after another. -/
def poolDeallocAll (idxs : List ℕ) (s : PoolState) : PoolState :=
  idxs.foldl pool_deallocate s

lemma spscWF_init (T : Type) (d : T) {n : ℕ} (hn : 0 < n) : SpscWF n (spscInit T d) :=
  ⟨hn, hn⟩

lemma spscPush_wf {n : ℕ} (hn : 0 < n) {s s' : SpscState T} {x : T}
    (hs : SpscWF n s) (h : spscPush n s x = some s') : SpscWF n s' := by
  unfold spscPush at h
  by_cases hfull : (s.tail + 1) % n = s.head
  · simp [hfull] at h
  · simp [hfull] at h
    subst h
    exact ⟨hs.1, Nat.mod_lt _ hn⟩

lemma spscPop_wf {n : ℕ} (hn : 0 < n) {s s' : SpscState T} {v : T}
    (hs : SpscWF n s) (h : spscPop n s = some (v, s')) : SpscWF n s' := by
  unfold spscPop at h
  by_cases he : s.head = s.tail
  · simp [he] at h
  · simp [he] at h
    obtain ⟨-, h2⟩ := h
    subst h2
    exact ⟨Nat.mod_lt _ hn, hs.2⟩

/-- The slot written by a successful push is exactly one past the current
contents: `(head + len) % n = tail` when both indices are in range. -/
lemma spsc_head_add_len {n head tail : ℕ} (hh : head < n) (ht : tail < n) :
    (head + (tail + n - head) % n) % n = tail := by
  rcases le_or_lt head tail with hle | hlt
  · have h1 : (tail + n - head) % n = tail - head := by
      have : tail + n - head = (tail - head) + n := by omega
      rw [this, Nat.add_mod_right]
      exact Nat.mod_eq_of_lt (by omega)
    rw [h1]
    have : head + (tail - head) = tail := by omega
    rw [this, Nat.mod_eq_of_lt ht]
  · have h1 : (tail + n - head) % n = tail + n - head := Nat.mod_eq_of_lt (by omega)
    rw [h1]
    have : head + (tail + n - head) = tail + n := by omega
    rw [this, Nat.add_mod_right, Nat.mod_eq_of_lt ht]

lemma spsc_len_lt {n head tail : ℕ} (hn : 0 < n) : (tail + n - head) % n < n :=
  Nat.mod_lt _ hn

/-- No index strictly inside the current contents aliases the write slot
`tail`. -/
lemma spsc_idx_ne {n head tail : ℕ} (hh : head < n) (ht : tail < n) {i : ℕ}
    (hi : i < (tail + n - head) % n) : (head + i) % n ≠ tail := by
  intro heq
  have hL1 : (head + (tail + n - head) % n) % n = tail := spsc_head_add_len hh ht
  set len := (tail + n - head) % n with hlen
  have hmc : head + i ≡ head + len [MOD n] := by
    unfold Nat.ModEq
    rw [heq, hL1]
  have hil : i ≡ len [MOD n] := Nat.ModEq.add_left_cancel' head hmc
  have hlt : len < n := Nat.mod_lt _ (by omega)
  have : i = len := by
    have h1 : i % n = len % n := hil
    rw [Nat.mod_eq_of_lt (by omega), Nat.mod_eq_of_lt hlt] at h1
    exact h1
  omega

/-- Non-full means the contents are shorter than `n - 1`. -/
lemma spsc_nonfull_len {n head tail : ℕ} (hh : head < n) (ht : tail < n)
    (hfull : (tail + 1) % n ≠ head) : (tail + n - head) % n ≠ n - 1 := by
  intro hcontra
  apply hfull
  have hL1 : (head + (tail + n - head) % n) % n = tail := spsc_head_add_len hh ht
  rw [hcontra] at hL1
  have h2 : (tail + 1) % n = (head + (n - 1) + 1) % n := by
    conv_lhs => rw [← hL1]
    rw [Nat.mod_add_mod]
  rw [h2]
  have h3 : head + (n - 1) + 1 = head + n := by omega
  rw [h3, Nat.add_mod_right, Nat.mod_eq_of_lt hh]

/-- A successful push grows the contents length by exactly one. -/
lemma spsc_push_len {n head tail : ℕ} (hh : head < n) (ht : tail < n)
    (hfull : (tail + 1) % n ≠ head) :
    ((tail + 1) % n + n - head) % n = (tail + n - head) % n + 1 := by
  set len := (tail + n - head) % n with hlen
  have hlt : len < n := Nat.mod_lt _ (by omega)
  have hne : len ≠ n - 1 := spsc_nonfull_len hh ht hfull
  have h1 : (tail + 1) % n + n - head = (tail + 1) % n + (n - head) := by omega
  rw [h1]
  have h2 : ((tail + 1) % n + (n - head)) % n = (tail + 1 + (n - head)) % n :=
    Nat.ModEq.add_right (n - head) (Nat.mod_modEq (tail + 1) n)
  rw [h2]
  have h3 : tail + 1 + (n - head) = (tail + n - head) + 1 := by omega
  rw [h3]
  have h4 : ((tail + n - head) + 1) % n = (len + 1) % n :=
    Nat.ModEq.add_right 1 (Nat.mod_modEq (tail + n - head) n).symm
  rw [h4, Nat.mod_eq_of_lt (by omega)]

/-- A successful push appends its value to the logical contents. -/
lemma spscPush_contents {n : ℕ} {s s' : SpscState T} {x : T}
    (hs : SpscWF n s) (h : spscPush n s x = some s') :
    spscContents n s' = spscContents n s ++ [x] := by
  obtain ⟨hh, ht⟩ := hs
  unfold spscPush at h
  by_cases hfull : (s.tail + 1) % n = s.head
  · simp [hfull] at h
  · simp [hfull] at h
    subst h
    unfold spscContents
    simp only
    rw [spsc_push_len hh ht hfull, List.range_succ, List.map_append]
    congr 1
    · apply List.map_congr_left
      intro i hi
      rw [List.mem_range] at hi
      exact Function.update_noteq (spsc_idx_ne hh ht hi) _ _
    · simp only [List.map_cons, List.map_nil]
      rw [spsc_head_add_len hh ht, Function.update_same]

/-- A successful pop removes the first element of the logical contents. -/
lemma spscPop_contents {n : ℕ} {s s' : SpscState T} {v : T}
    (hs : SpscWF n s) (h : spscPop n s = some (v, s')) :
    spscContents n s = v :: spscContents n s' := by
  obtain ⟨hh, ht⟩ := hs
  unfold spscPop at h
  by_cases he : s.head = s.tail
  · simp [he] at h
  · simp [he] at h
    obtain ⟨hv, hs'⟩ := h
    subst hs'
    set len := (s.tail + n - s.head) % n with hlen
    have hlt : len < n := Nat.mod_lt _ (by omega)
    have hpos : 0 < len := by
      rcases Nat.eq_zero_or_pos len with h0 | h0
      · exfalso
        have hL1 : (s.head + len) % n = s.tail := spsc_head_add_len hh ht
        rw [h0, Nat.add_zero, Nat.mod_eq_of_lt hh] at hL1
        exact he hL1
      · exact h0
    obtain ⟨m, hm⟩ : ∃ m, len = m + 1 := ⟨len - 1, by omega⟩
    have hlen' : (s.tail + n - (s.head + 1) % n) % n = m := by
      rcases Nat.lt_or_ge (s.head + 1) n with hlt1 | hge1
      · rw [Nat.mod_eq_of_lt hlt1]
        have h1 : s.tail + n - (s.head + 1) = (s.tail + n - s.head) - 1 := by omega
        rw [h1]
        have hA : s.tail + n - s.head ≡ m + 1 [MOD n] := by
          have h2 := (Nat.mod_modEq (s.tail + n - s.head) n).symm
          rw [← hlen, hm] at h2
          exact h2
        have h3 : (s.tail + n - s.head - 1) + 1 ≡ m + 1 [MOD n] := by
          rw [show s.tail + n - s.head - 1 + 1 = s.tail + n - s.head from by omega]
          exact hA
        have h4 : s.tail + n - s.head - 1 ≡ m [MOD n] :=
          Nat.ModEq.add_right_cancel' 1 h3
        rw [h4]
        exact Nat.mod_eq_of_lt (by omega)
      · -- head = n - 1, so the new head wraps to 0
        have hhead : s.head = n - 1 := by omega
        have hw : (s.head + 1) % n = 0 := by
          rw [show s.head + 1 = n from by omega, Nat.mod_self]
        rw [hw, Nat.sub_zero, Nat.add_mod_right]
        have htl : s.tail < n - 1 := by
          rcases Nat.lt_or_ge s.tail (n - 1) with h' | h'
          · exact h'
          · exact absurd (by omega : s.head = s.tail) he
        have : len = s.tail + 1 := by
          rw [hlen, hhead, show s.tail + n - (n - 1) = s.tail + 1 from by omega]
          exact Nat.mod_eq_of_lt (by omega)
        rw [Nat.mod_eq_of_lt ht]
        omega
    unfold spscContents
    simp only
    rw [hlen', ← hlen, hm, List.range_succ_eq_map, List.map_cons, List.map_map]
    simp only [List.cons.injEq]
    constructor
    · rw [Nat.add_zero, Nat.mod_eq_of_lt hh]
      exact hv
    · apply List.map_congr_left
      intro i hi
      simp only [Function.comp_apply]
      rw [Nat.mod_add_mod]
      have harg : s.head + i.succ = s.head + 1 + i := by omega
      rw [harg]

/-- Refinement of the SPSC ring by a FIFO list: along any sequential trace,
the values already inside the ring followed by the accepted pushes equal the
returned pops followed by the values left inside the ring. -/
lemma spscRun_refines {n : ℕ} (hn : 0 < n) :
    ∀ (ops : List (SpscOp T)) (s : SpscState T), SpscWF n s →
      spscContents n s ++ (spscRun n ops s).2.1 =
        (spscRun n ops s).2.2 ++ spscContents n (spscRun n ops s).1 ∧
      SpscWF n (spscRun n ops s).1 := by
  intro ops
  induction ops with
  | nil => intro s hs; simpa [spscRun] using hs
  | cons op ops ih =>
    intro s hs
    cases op with
    | push x =>
      rcases hp : spscPush n s x with - | s'
      · simpa [spscRun, hp] using ih s hs
      · have hwf' := spscPush_wf hn hs hp
        obtain ⟨ih1, ih2⟩ := ih s' hwf'
        refine ⟨?_, by simpa [spscRun, hp] using ih2⟩
        simp only [spscRun, hp]
        rw [spscPush_contents hs hp] at ih1
        simpa using ih1
    | pop =>
      rcases hp : spscPop n s with - | vs'
      · simpa [spscRun, hp] using ih s hs
      · obtain ⟨v, s'⟩ := vs'
        have hwf' := spscPop_wf hn hs hp
        obtain ⟨ih1, ih2⟩ := ih s' hwf'
        refine ⟨?_, by simpa [spscRun, hp] using ih2⟩
        simp only [spscRun, hp]
        rw [spscPop_contents hs hp]
        simpa using ih1

lemma spscPushes_state {n : ℕ} (d : T) (vals : ℕ → T) :
    ∀ j, j < n → (spscPushes n d vals j).head = 0 ∧ (spscPushes n d vals j).tail = j := by
  intro j
  induction j with
  | zero => intro _; exact ⟨rfl, rfl⟩
  | succ j ih =>
    intro hj
    obtain ⟨ihh, iht⟩ := ih (by omega)
    have hnext : ((spscPushes n d vals j).tail + 1) % n = j + 1 := by
      rw [iht]; exact Nat.mod_eq_of_lt hj
    have hsucc : spscPush n (spscPushes n d vals j) (vals j) =
        some ⟨(spscPushes n d vals j).head, j + 1,
          Function.update (spscPushes n d vals j).buf (spscPushes n d vals j).tail (vals j)⟩ := by
      unfold spscPush
      rw [hnext, ihh]
      simp
    simp [spscPushes, hsucc, ihh]

/-- Refinement of the SPSC ring by a FIFO list, specialized to a fresh ring:
the accepted pushes are exactly the returned pops followed by what is left
inside. -/
lemma spscRun_fresh {n : ℕ} (hn : 0 < n) (d : T) (ops : List (SpscOp T)) :
    (spscRun n ops (spscInit T d)).2.1 =
      (spscRun n ops (spscInit T d)).2.2 ++
        spscContents n (spscRun n ops (spscInit T d)).1 := by
  have href := (spscRun_refines hn ops (spscInit T d) (spscWF_init T d hn)).1
  have hinit : spscContents n (spscInit T d) = [] := by
    unfold spscContents spscInit
    simp
  rw [hinit] at href
  simpa using href

/-- Claim C5: the SPSC ring of capacity `N = 2^k` contains at most `N-1`
elements in every reachable state (the pushes accepted along any trace from
a fresh ring exceed the pops served by at most `N-1`), and starting from an
empty ring the first `N-1` consecutive pushes succeed while the `N`-th
consecutive push, with no intervening pop, fails. -/
theorem spsc_capacity_bound (k : ℕ) (T : Type) (d : T) (vals : ℕ → T)
    (ops : List (SpscOp T)) :
    (spscRun (2 ^ k) ops (spscInit T d)).2.1.length ≤
      (spscRun (2 ^ k) ops (spscInit T d)).2.2.length + (2 ^ k - 1) ∧
    (∀ j, j < 2 ^ k - 1 →
      (spscPush (2 ^ k) (spscPushes (2 ^ k) d vals j) (vals j)).isSome = true) ∧
    (spscPush (2 ^ k) (spscPushes (2 ^ k) d vals (2 ^ k - 1)) (vals (2 ^ k - 1))).isSome
      = false := by
  have hn : 0 < 2 ^ k := by positivity
  refine ⟨?_, ?_, ?_⟩
  · have heq := spscRun_fresh hn d ops
    have hlen : (spscContents (2 ^ k) (spscRun (2 ^ k) ops (spscInit T d)).1).length ≤
        2 ^ k - 1 := by
      unfold spscContents
      simp only [List.length_map, List.length_range]
      have := Nat.mod_lt
        ((spscRun (2 ^ k) ops (spscInit T d)).1.tail + 2 ^ k -
          (spscRun (2 ^ k) ops (spscInit T d)).1.head) hn
      omega
    have := congrArg List.length heq
    simp only [List.length_append] at this
    omega
  · intro j hj
    obtain ⟨hh, ht⟩ := spscPushes_state (n := 2 ^ k) d vals j (by omega)
    unfold spscPush
    rw [ht, hh, Nat.mod_eq_of_lt (by omega)]
    simp
  · obtain ⟨hh, ht⟩ := spscPushes_state (n := 2 ^ k) d vals (2 ^ k - 1) (by omega)
    unfold spscPush
    rw [ht, hh]
    have hmod : (2 ^ k - 1 + 1) % 2 ^ k = 0 := by
      rw [show 2 ^ k - 1 + 1 = 2 ^ k from by omega, Nat.mod_self]
    rw [hmod]
    simp

/-- Witness for C5 at capacity `4`: the second push onto a fresh ring
succeeds (`1 < 3`), and the theorem's remaining conjuncts at this instance. -/
theorem spsc_capacity_bound_witness :
    1 < 2 ^ 2 - 1 ∧
    (spscPush (2 ^ 2) (spscPushes (2 ^ 2) (0 : ℕ) id 1) 1).isSome = true ∧
    (spscPush (2 ^ 2) (spscPushes (2 ^ 2) (0 : ℕ) id (2 ^ 2 - 1)) (2 ^ 2 - 1)).isSome
      = false :=
  ⟨by decide, (spsc_capacity_bound 2 ℕ 0 id []).2.1 1 (by decide),
    (spsc_capacity_bound 2 ℕ 0 id []).2.2⟩

/-- Claim C9: in every sequential execution of the SPSC ring, values come
out in FIFO order — the list of successfully popped values is an initial
segment of the list of successfully pushed values, so the `j`-th successful
pop returns exactly the value stored by the `j`-th successful push. -/
theorem spsc_fifo_order (k : ℕ) (T : Type) (d : T) (ops : List (SpscOp T)) :
    (∃ rest, (spscRun (2 ^ k) ops (spscInit T d)).2.1 =
      (spscRun (2 ^ k) ops (spscInit T d)).2.2 ++ rest) ∧
    ∀ j, j < (spscRun (2 ^ k) ops (spscInit T d)).2.2.length →
      (spscRun (2 ^ k) ops (spscInit T d)).2.2.get? j =
        (spscRun (2 ^ k) ops (spscInit T d)).2.1.get? j := by
  have hn : 0 < 2 ^ k := by positivity
  have heq := spscRun_fresh hn d ops
  refine ⟨⟨_, heq⟩, ?_⟩
  intro j hj
  rw [heq, List.get?_append hj]

/-- Witness for C9: a concrete trace (push 5, push 7, pop, pop) on a
capacity-4 ring; the first pop returns the first pushed value. -/
theorem spsc_fifo_order_witness :
    0 < (spscRun (2 ^ 2) [SpscOp.push 5, SpscOp.push 7, SpscOp.pop, SpscOp.pop]
          (spscInit ℕ 0)).2.2.length ∧
    (spscRun (2 ^ 2) [SpscOp.push 5, SpscOp.push 7, SpscOp.pop, SpscOp.pop]
        (spscInit ℕ 0)).2.2.get? 0 =
      (spscRun (2 ^ 2) [SpscOp.push 5, SpscOp.push 7, SpscOp.pop, SpscOp.pop]
        (spscInit ℕ 0)).2.1.get? 0 :=
  ⟨by decide,
    (spsc_fifo_order 2 ℕ 0 [SpscOp.push 5, SpscOp.push 7, SpscOp.pop, SpscOp.pop]).2
      0 (by decide)⟩

/-- The remapped hash tag is never EMPTY. -/
lemma remapHash_ne_zero (h : ℕ) : remapHash h ≠ 0 := by
  unfold remapHash
  by_cases h01 : h = 0 ∨ h = 1
  · simp [h01]
  · simp [h01]
    push_neg at h01
    exact h01.1

/-- Unfolding of one probe step of `insert`. -/
lemma insertLoop_succ {V : Type} (n h : ℕ) (key : List ℕ) (v : V)
    (fuel idx : ℕ) (s : HState V) :
    insertLoop n h key v (fuel + 1) idx s =
      if (s idx).hash = 0 then
        (true, Function.update s idx ⟨h, key.take 15, v⟩)
      else if (s idx).hash = h ∧ (s idx).key = key then
        (true, Function.update s idx ⟨(s idx).hash, (s idx).key, v⟩)
      else insertLoop n h key v fuel ((idx + 1) % n) s := rfl

/-- Unfolding of one probe step of `find`. -/
lemma findLoop_succ {V : Type} (n h : ℕ) (key : List ℕ)
    (fuel idx : ℕ) (s : HState V) :
    findLoop n h key (fuel + 1) idx s =
      if (s idx).hash = 0 then none
      else if (s idx).hash = h ∧ (s idx).key = key then some (s idx).val
      else findLoop n h key fuel ((idx + 1) % n) s := rfl

/-- The insert probe loop modifies at most one slot, and that slot lies on
the probe chain it visits. -/
lemma insertLoop_untouched {V : Type} {n h : ℕ} (hn : 0 < n) (key : List ℕ) (v : V) :
    ∀ (fuel idx : ℕ) (s : HState V) (b : Bool) (s' : HState V), idx < n →
      insertLoop n h key v fuel idx s = (b, s') →
      ∀ i, (∀ m, m < fuel → i ≠ (idx + m) % n) → s' i = s i := by
  intro fuel
  induction fuel with
  | zero =>
    intro idx s b s' _ heq i _
    simp [insertLoop] at heq
    rw [heq.2]
  | succ fuel ih =>
    intro idx s b s' hidx heq i hi
    have hi0 : i ≠ idx := by
      have := hi 0 (by omega)
      rwa [Nat.add_zero, Nat.mod_eq_of_lt hidx] at this
    rw [insertLoop_succ] at heq
    by_cases h0 : (s idx).hash = 0
    · rw [if_pos h0] at heq
      simp only [Prod.mk.injEq] at heq
      rw [← heq.2, Function.update_noteq hi0]
    · rw [if_neg h0] at heq
      by_cases hm : (s idx).hash = h ∧ (s idx).key = key
      · rw [if_pos hm] at heq
        simp only [Prod.mk.injEq] at heq
        rw [← heq.2, Function.update_noteq hi0]
      · rw [if_neg hm] at heq
        refine ih ((idx + 1) % n) s b s' (Nat.mod_lt _ hn) heq i ?_
        intro m hm'
        have := hi (m + 1) (by omega)
        rwa [show idx + (m + 1) = idx + 1 + m from by omega, ← Nat.mod_add_mod] at this

/-- After a probe loop insert reports success, the probe loop lookup that
starts at the same slot with the same tag finds the stored value — provided
the key survives the 15-byte `strncpy` truncation intact. -/
lemma insert_find_loop {V : Type} {n h : ℕ} (hn : 0 < n) (hh : h ≠ 0)
    (key : List ℕ) (hkey : key.take 15 = key) (v : V) :
    ∀ (fuel idx : ℕ) (s s' : HState V), fuel ≤ n → idx < n →
      insertLoop n h key v fuel idx s = (true, s') →
      findLoop n h key fuel idx s' = some v := by
  intro fuel
  induction fuel with
  | zero =>
    intro idx s s' _ _ heq
    simp [insertLoop] at heq
  | succ fuel ih =>
    intro idx s s' hfuel hidx heq
    rw [insertLoop_succ] at heq
    by_cases h0 : (s idx).hash = 0
    · rw [if_pos h0] at heq
      simp only [Prod.mk.injEq, true_and] at heq
      rw [← heq]
      simp [findLoop_succ, Function.update_same, hh, hkey]
    · rw [if_neg h0] at heq
      by_cases hm : (s idx).hash = h ∧ (s idx).key = key
      · rw [if_pos hm] at heq
        simp only [Prod.mk.injEq, true_and] at heq
        rw [← heq]
        simp [findLoop_succ, Function.update_same, hh, hm.1, hm.2]
      · rw [if_neg hm] at heq
        have heq' : insertLoop n h key v fuel ((idx + 1) % n) s = (true, s') := heq
        have huntouched : s' idx = s idx := by
          refine insertLoop_untouched hn key v fuel ((idx + 1) % n) s true s'
            (Nat.mod_lt _ hn) heq' idx ?_
          intro m hm' hcontra
          have h1 : ((idx + 1) % n + m) % n = (idx + (1 + m)) % n := by
            rw [Nat.mod_add_mod, show idx + 1 + m = idx + (1 + m) from by omega]
          rw [h1] at hcontra
          have h2 : idx + (1 + m) ≡ idx + 0 [MOD n] := by
            unfold Nat.ModEq
            rw [← hcontra, Nat.add_zero, Nat.mod_eq_of_lt hidx]
          have h3 : 1 + m ≡ 0 [MOD n] := Nat.ModEq.add_left_cancel' idx h2
          have h4 : n ∣ (1 + m) := by
            have := h3.symm
            unfold Nat.ModEq at this
            simp at this
            exact Nat.dvd_of_mod_eq_zero this.symm
          have h5 : n ≤ 1 + m := Nat.le_of_dvd (by omega) h4
          omega
        have hfind : findLoop n h key (fuel + 1) idx s' =
            findLoop n h key fuel ((idx + 1) % n) s' := by
          simp [findLoop, huntouched, h0, hm]
        rw [hfind]
        exact ih ((idx + 1) % n) s s' (by omega) (Nat.mod_lt _ hn) heq'

/-- Claim C3: for every key of at most 15 bytes (the data model's symbol
keys), in a single-threaded execution, after `insert(K, V)` returns true on
any prior table state, `find(K)` returns a non-null pointer whose
dereferenced value equals `V`. -/
theorem hashmap_insert_find (V : Type) (k : ℕ) (key : List ℕ) (v : V)
    (s : HState V) (hkey : key.length ≤ 15)
    (hins : (hmInsert (2 ^ k) s key v).1 = true) :
    hmFind (2 ^ k) (hmInsert (2 ^ k) s key v).2 key = some v := by
  have hn : 0 < 2 ^ k := by positivity
  have htake : key.take 15 = key := List.take_of_length_le hkey
  have hh : remapHash (hash_string key) ≠ 0 := remapHash_ne_zero _
  unfold hmInsert at hins ⊢
  unfold hmFind
  exact insert_find_loop hn hh key htake v (2 ^ k)
    (remapHash (hash_string key) % 2 ^ k)
    s (insertLoop (2 ^ k) (remapHash (hash_string key)) key v (2 ^ k)
        (remapHash (hash_string key) % 2 ^ k) s).2
    le_rfl (Nat.mod_lt _ hn) (by rw [← hins])

/-- Witness for C3: inserting "AAPL" (bytes 65,65,80,76) with value 150
into an empty 256-slot table succeeds, and the subsequent find returns
150. -/
theorem hashmap_insert_find_witness :
    ([65, 65, 80, 76] : List ℕ).length ≤ 15 ∧
    (hmInsert (2 ^ 8) (hmEmpty ℕ 0) [65, 65, 80, 76] 150).1 = true ∧
    hmFind (2 ^ 8) (hmInsert (2 ^ 8) (hmEmpty ℕ 0) [65, 65, 80, 76] 150).2
      [65, 65, 80, 76] = some 150 :=
  ⟨by decide, by decide,
    hashmap_insert_find ℕ 8 [65, 65, 80, 76] 150 (hmEmpty ℕ 0) (by decide) (by decide)⟩

/-- `update_level` never writes `order_count`, so it preserves the
all-counts-zero invariant on the updated side. -/
lemma updateLevel_order_count (b : BookSide) (L : Fin 10) (P Q : ℚ)
    (hz : ∀ i, (b.levels i).order_count = 0) :
    ∀ i, ((updateLevel b L P Q).levels i).order_count = 0 := by
  intro i
  show (Function.update b.levels L
    ⟨P, Q, (b.levels L).order_count⟩ i).order_count = 0
  by_cases hi : i = L
  · rw [hi, Function.update_same]
    exact hz L
  · rw [Function.update_noteq hi]
    exact hz i

/-- A single update (either side) preserves the all-counts-zero invariant. -/
lemma applyUpd_zero (bk : OrderBookState) (u : BookUpd)
    (hb : ∀ i, (bk.bids.levels i).order_count = 0)
    (ha : ∀ i, (bk.asks.levels i).order_count = 0) :
    (∀ i, ((applyUpd bk u).bids.levels i).order_count = 0) ∧
    (∀ i, ((applyUpd bk u).asks.levels i).order_count = 0) := by
  cases u with
  | bid l p q =>
    show (∀ i, ((update_bid bk l p q).bids.levels i).order_count = 0) ∧
      (∀ i, ((update_bid bk l p q).asks.levels i).order_count = 0)
    unfold update_bid
    by_cases hl : l < 10
    · rw [dif_pos hl]
      exact ⟨updateLevel_order_count _ _ _ _ hb, ha⟩
    · rw [dif_neg hl]
      exact ⟨hb, ha⟩
  | ask l p q =>
    show (∀ i, ((update_ask bk l p q).bids.levels i).order_count = 0) ∧
      (∀ i, ((update_ask bk l p q).asks.levels i).order_count = 0)
    unfold update_ask
    by_cases hl : l < 10
    · rw [dif_pos hl]
      exact ⟨hb, updateLevel_order_count _ _ _ _ ha⟩
    · rw [dif_neg hl]
      exact ⟨hb, ha⟩

/-- In every reachable book the reserved `order_count` fields are still 0:
the constructor zeroes them and the market-data updates never write them. -/
lemma runUpds_zero (us : List BookUpd) :
    (∀ i, ((runUpds us).bids.levels i).order_count = 0) ∧
    (∀ i, ((runUpds us).asks.levels i).order_count = 0) := by
  unfold runUpds
  have hgen : ∀ (l : List BookUpd) (bk : OrderBookState),
      (∀ i, (bk.bids.levels i).order_count = 0) →
      (∀ i, (bk.asks.levels i).order_count = 0) →
      (∀ i, ((l.foldl applyUpd bk).bids.levels i).order_count = 0) ∧
      (∀ i, ((l.foldl applyUpd bk).asks.levels i).order_count = 0) := by
    intro l
    induction l with
    | nil => intro bk hb ha; exact ⟨hb, ha⟩
    | cons u l ih =>
      intro bk hb ha
      obtain ⟨hb', ha'⟩ := applyUpd_zero bk u hb ha
      exact ih (applyUpd bk u) hb' ha'
  exact hgen us freshBook (fun _ => rfl) (fun _ => rfl)

/-- What one in-range level update does to a side whose `uint64` sequence is
not at its wrap point. -/
lemma updateLevel_spec (b : BookSide) (L : Fin 10) (P Q : ℚ)
    (hseq : b.seq + 1 < 2 ^ 64) (hz : (b.levels L).order_count = 0) :
    (updateLevel b L P Q).seq = b.seq + 1 ∧
    L.val + 1 ≤ (updateLevel b L P Q).depth ∧
    (updateLevel b L P Q).levels L = ⟨P, Q, 0⟩ := by
  refine ⟨?_, ?_, ?_⟩
  · show (b.seq + 1) % U64 = b.seq + 1
    exact Nat.mod_eq_of_lt (by simpa [U64] using hseq)
  · show L.val + 1 ≤ if b.depth ≤ L.val then L.val + 1 else b.depth
    split <;> omega
  · show Function.update b.levels L _ L = _
    rw [Function.update_same, hz]

/-- Claim C4, corrected: for every book reachable from construction, every
in-range level index `L < MAX_DEPTH` (an out-of-range update is a no-op and
leaves the sequence unchanged), price `P` and quantity `Q`, with the
`uint64` sequence not at its wrap point: after `update_bid(L, P, Q)` (resp.
`update_ask`) a snapshot observes `sequence ≥ prior_sequence + 1`,
`depth ≥ L + 1`, and level `L` equal to `(P, Q, 0)`. -/
theorem book_update_snapshot (us : List BookUpd) (L : ℕ) (P Q : ℚ) (now : ℕ)
    (hL : L < 10) :
    ((runUpds us).bids.seq + 1 < 2 ^ 64 →
      (runUpds us).bids.seq + 1 ≤
        (get_snapshot (update_bid (runUpds us) L P Q) now).bid_sequence ∧
      L + 1 ≤ (get_snapshot (update_bid (runUpds us) L P Q) now).bid_depth ∧
      (get_snapshot (update_bid (runUpds us) L P Q) now).bids ⟨L, hL⟩ = ⟨P, Q, 0⟩) ∧
    ((runUpds us).asks.seq + 1 < 2 ^ 64 →
      (runUpds us).asks.seq + 1 ≤
        (get_snapshot (update_ask (runUpds us) L P Q) now).ask_sequence ∧
      L + 1 ≤ (get_snapshot (update_ask (runUpds us) L P Q) now).ask_depth ∧
      (get_snapshot (update_ask (runUpds us) L P Q) now).asks ⟨L, hL⟩ = ⟨P, Q, 0⟩) := by
  obtain ⟨hzb, hza⟩ := runUpds_zero us
  constructor
  · intro hseq
    have hspec := updateLevel_spec (runUpds us).bids ⟨L, hL⟩ P Q hseq (hzb _)
    simp only [update_bid, hL, dif_pos, get_snapshot]
    exact ⟨le_of_eq hspec.1.symm, hspec.2.1, hspec.2.2⟩
  · intro hseq
    have hspec := updateLevel_spec (runUpds us).asks ⟨L, hL⟩ P Q hseq (hza _)
    simp only [update_ask, hL, dif_pos, get_snapshot]
    exact ⟨le_of_eq hspec.1.symm, hspec.2.1, hspec.2.2⟩

/-- Counterexample for C4 as stated: at level index `L = 10 = MAX_DEPTH`
(the claim quantifies over every level index), `update_bid` is a no-op, so
the snapshot sequence stays at the prior value instead of exceeding it. -/
theorem book_update_snapshot_cex :
    ¬ ((runUpds []).bids.seq + 1 ≤
        (get_snapshot (update_bid (runUpds []) 10 5 5) 0).bid_sequence) := by
  decide

/-- Witness for C4 on a fresh book at level 0. -/
theorem book_update_snapshot_witness :
    (0 : ℕ) < 10 ∧ (runUpds []).bids.seq + 1 < 2 ^ 64 ∧
    ((runUpds []).bids.seq + 1 ≤
      (get_snapshot (update_bid (runUpds []) 0 1 2) 0).bid_sequence ∧
     0 + 1 ≤ (get_snapshot (update_bid (runUpds []) 0 1 2) 0).bid_depth ∧
     (get_snapshot (update_bid (runUpds []) 0 1 2) 0).bids ⟨0, by decide⟩ = ⟨1, 2, 0⟩) :=
  ⟨by decide, by decide, (book_update_snapshot [] 0 1 2 0 (by decide)).1 (by decide)⟩

/-- Claim C6, corrected: when `bid_depth == 0` the snapshot's `best_bid()`
is 0, and when `ask_depth == 0` its `best_ask()` is `DBL_MAX` — the largest
FINITE double, `(2^53 - 1) * 2^971` — not the IEEE `+∞` the claim states. -/
theorem snapshot_best_empty (s : Snapshot) :
    (s.bid_depth = 0 → s.best_bid = 0) ∧
    (s.ask_depth = 0 → s.best_ask_ieee = Dbl.fin dblMax) := by
  constructor
  · intro h
    simp [Snapshot.best_bid, h]
  · intro h
    simp [Snapshot.best_ask_ieee, h]

/-- Counterexample for C6 as stated: a snapshot of a freshly constructed
book has `ask_depth = 0`, and its `best_ask` is the finite double `DBL_MAX`,
which is not `+∞`. -/
theorem snapshot_best_empty_cex :
    (get_snapshot freshBook 0).ask_depth = 0 ∧
    (get_snapshot freshBook 0).best_ask_ieee = Dbl.fin dblMax ∧
    Dbl.fin dblMax ≠ Dbl.posInf := by
  refine ⟨rfl, rfl, by simp⟩

/-- Witness for C6 on a freshly constructed book's snapshot. -/
theorem snapshot_best_empty_witness :
    ((get_snapshot freshBook 0).bid_depth = 0 ∧
      (get_snapshot freshBook 0).best_bid = 0) ∧
    ((get_snapshot freshBook 0).ask_depth = 0 ∧
      (get_snapshot freshBook 0).best_ask_ieee = Dbl.fin dblMax) :=
  ⟨⟨rfl, (snapshot_best_empty (get_snapshot freshBook 0)).1 rfl⟩,
   ⟨rfl, (snapshot_best_empty (get_snapshot freshBook 0)).2 rfl⟩⟩

/-- Claim C10: `spread_bps()` returns 0 whenever `mid_price() ≤ 0` (the
division by mid is guarded by `mid > 0`), and a snapshot of a freshly
created empty book yields a well-defined `spread_bps` (its value is 20 000,
since `best_bid = 0` and `best_ask = DBL_MAX` there). -/
theorem spread_bps_guarded :
    (∀ s : Snapshot, s.mid_price ≤ 0 → s.spread_bps = 0) ∧
    (get_snapshot freshBook 0).spread_bps = 20000 := by
  constructor
  · intro s hs
    unfold Snapshot.spread_bps
    rw [if_neg (not_lt.mpr hs)]
  · show Snapshot.spread_bps _ = 20000
    unfold Snapshot.spread_bps Snapshot.mid_price Snapshot.spread
      Snapshot.best_bid Snapshot.best_ask
    norm_num [get_snapshot, freshBook, freshSide, dblMax]

/-- Witness for C10: a snapshot with no bids and a zero-priced ask level has
`mid_price = 0 ≤ 0`, and its `spread_bps` is 0. -/
theorem spread_bps_guarded_witness :
    (⟨fun _ => emptyLevel, fun _ => emptyLevel, 0, 1, 0, 0, 0⟩ : Snapshot).mid_price ≤ 0 ∧
    (⟨fun _ => emptyLevel, fun _ => emptyLevel, 0, 1, 0, 0, 0⟩ : Snapshot).spread_bps = 0 :=
  ⟨by norm_num [Snapshot.mid_price, Snapshot.best_bid, Snapshot.best_ask, emptyLevel],
    spread_bps_guarded.1 ⟨fun _ => emptyLevel, fun _ => emptyLevel, 0, 1, 0, 0, 0⟩
      (by norm_num [Snapshot.mid_price, Snapshot.best_bid, Snapshot.best_ask, emptyLevel])⟩

/-- Claim C7: whenever the strategy emits quotes for a snapshot with
positive mid and a position strictly inside the limit, the emitted prices
satisfy `fair = mid * (1 - position/max_position * skew_factor)`,
`bid_px = fair - fair*spread_target/2 - fair*edge` and
`ask_px = fair + fair*spread_target/2 + fair*edge`; in particular, with the
spec's scenario-5 parameters and `mid = 100`, `position = 0`, the emitted
prices are `bid_px = 99.98` and `ask_px = 100.02`. -/
theorem strategy_quote_prices :
    (∀ (params : StratParams) (position : ℚ) (s : Snapshot),
      0 < s.mid_price → |position| < params.max_position →
      ∃ bq aq, update_quotes params position s = some (bq, aq) ∧
        (∀ o ∈ bq, o.price =
          s.mid_price * (1 - position / params.max_position * params.skew_factor) -
          s.mid_price * (1 - position / params.max_position * params.skew_factor) *
            params.spread_target / 2 -
          s.mid_price * (1 - position / params.max_position * params.skew_factor) *
            params.edge) ∧
        (∀ o ∈ aq, o.price =
          s.mid_price * (1 - position / params.max_position * params.skew_factor) +
          s.mid_price * (1 - position / params.max_position * params.skew_factor) *
            params.spread_target / 2 +
          s.mid_price * (1 - position / params.max_position * params.skew_factor) *
            params.edge)) ∧
    update_quotes demoParams 0 demoSnap =
      some (some ⟨9998 / 100, 100⟩, some ⟨10002 / 100, 100⟩) := by
  constructor
  · intro params position s hmid hpos
    unfold update_quotes
    rw [if_neg (not_le.mpr hmid), if_neg (not_le.mpr hpos)]
    refine ⟨_, _, rfl, ?_, ?_⟩
    · intro o ho
      by_cases hc : position < params.max_position * (4 / 5)
      · rw [if_pos hc] at ho
        simp only [Option.mem_def, Option.some.injEq] at ho
        rw [← ho]
        show calculate_fair_value params s.mid_price position -
            calculate_fair_value params s.mid_price position * params.spread_target / 2 -
            params.edge * calculate_fair_value params s.mid_price position = _
        unfold calculate_fair_value
        ring
      · rw [if_neg hc] at ho
        simp at ho
    · intro o ho
      by_cases hc : -(params.max_position * (4 / 5)) < position
      · rw [if_pos hc] at ho
        simp only [Option.mem_def, Option.some.injEq] at ho
        rw [← ho]
        show calculate_fair_value params s.mid_price position +
            calculate_fair_value params s.mid_price position * params.spread_target / 2 +
            params.edge * calculate_fair_value params s.mid_price position = _
        unfold calculate_fair_value
        ring
      · rw [if_neg hc] at ho
        simp at ho
  · have hmid : demoSnap.mid_price = 100 := by
      norm_num [Snapshot.mid_price, Snapshot.best_bid, Snapshot.best_ask, demoSnap]
    unfold update_quotes calculate_fair_value
    rw [hmid]
    norm_num [demoParams, Quote.mk.injEq]

/-- Witness for C7 at the scenario-5 instance. -/
theorem strategy_quote_prices_witness :
    0 < demoSnap.mid_price ∧ |(0 : ℚ)| < demoParams.max_position ∧
    (∃ bq aq, update_quotes demoParams 0 demoSnap = some (bq, aq) ∧
      (∀ o ∈ bq, o.price =
        demoSnap.mid_price * (1 - 0 / demoParams.max_position * demoParams.skew_factor) -
        demoSnap.mid_price * (1 - 0 / demoParams.max_position * demoParams.skew_factor) *
          demoParams.spread_target / 2 -
        demoSnap.mid_price * (1 - 0 / demoParams.max_position * demoParams.skew_factor) *
          demoParams.edge) ∧
      (∀ o ∈ aq, o.price =
        demoSnap.mid_price * (1 - 0 / demoParams.max_position * demoParams.skew_factor) +
        demoSnap.mid_price * (1 - 0 / demoParams.max_position * demoParams.skew_factor) *
          demoParams.spread_target / 2 +
        demoSnap.mid_price * (1 - 0 / demoParams.max_position * demoParams.skew_factor) *
          demoParams.edge)) :=
  ⟨by norm_num [Snapshot.mid_price, Snapshot.best_bid, Snapshot.best_ask, demoSnap],
   by norm_num [demoParams],
   strategy_quote_prices.1 demoParams 0 demoSnap
     (by norm_num [Snapshot.mid_price, Snapshot.best_bid, Snapshot.best_ask, demoSnap])
     (by norm_num [demoParams])⟩

/-- What `check_rate_limit` leaves behind, by result. -/
lemma check_rate_limit_spec (lim : RiskLimits) (now : ℕ) (s : RiskState) :
    ((check_rate_limit lim now s).1 = false →
      (check_rate_limit lim now s).2 = update_rate_limiter now s) ∧
    ((check_rate_limit lim now s).1 = true →
      (check_rate_limit lim now s).2 = { update_rate_limiter now s with
        orders_this_second :=
          ((update_rate_limiter now s).orders_this_second + 1) % 2 ^ 32 }) := by
  unfold check_rate_limit
  by_cases hc : lim.max_orders_per_second ≤ (update_rate_limiter now s).orders_this_second
  · simp [hc]
  · simp [hc]

/-- `update_rate_limiter` never touches position or notional. -/
lemma update_rate_limiter_preserves (now : ℕ) (s : RiskState) :
    (update_rate_limiter now s).position = s.position ∧
    (update_rate_limiter now s).notional = s.notional := by
  unfold update_rate_limiter
  split <;> exact ⟨rfl, rfl⟩

/-- Claim C2, corrected: a `submit_order` call rejected by the order-size or
position-limit checks leaves the whole submitter state unchanged, and every
rejected call leaves position and cumulative notional unchanged; but the
rate-limiter bookkeeping is not rolled back — a rate-limit rejection leaves
the state produced by `update_rate_limiter` (which may have reset the
counter and advanced the last-second timestamp), and a notional-limit
rejection additionally leaves the orders-in-current-second counter
incremented by the rate check that preceded it. -/
theorem submit_order_reject_state (lim : RiskLimits) (now : ℕ) (send_ok : Bool)
    (s : RiskState) (o : OrderReq) :
    ((submit_order lim now send_ok s o).1 = SubmitResult.rejOrderSize ∨
     (submit_order lim now send_ok s o).1 = SubmitResult.rejPositionLimit →
      (submit_order lim now send_ok s o).2 = s) ∧
    ((submit_order lim now send_ok s o).1 = SubmitResult.rejRateLimit →
      (submit_order lim now send_ok s o).2 = update_rate_limiter now s) ∧
    ((submit_order lim now send_ok s o).1 = SubmitResult.rejNotionalLimit →
      (submit_order lim now send_ok s o).2 = { update_rate_limiter now s with
        orders_this_second :=
          ((update_rate_limiter now s).orders_this_second + 1) % 2 ^ 32 }) ∧
    ((submit_order lim now send_ok s o).1 ≠ SubmitResult.sent →
      (submit_order lim now send_ok s o).2.position = s.position ∧
      (submit_order lim now send_ok s o).2.notional = s.notional) := by
  obtain ⟨hrlf, hrlt⟩ := check_rate_limit_spec lim now s
  obtain ⟨hppos, hpnot⟩ := update_rate_limiter_preserves now s
  unfold submit_order
  cases h1 : check_order_size lim o.quantity with
  | false => simp [h1]
  | true =>
    cases h2 : check_position_limit lim s o with
    | false => simp [h1, h2]
    | true =>
      cases h3 : (check_rate_limit lim now s).1 with
      | false =>
        have h3' := hrlf h3
        simp only [h1, h2, h3, Bool.not_true, Bool.not_false, Bool.false_eq_true,
          if_false, if_true, ite_true, ite_false]
        refine ⟨by simp, by simp [h3'], by simp, ?_⟩
        intro _
        rw [h3']
        exact ⟨hppos, hpnot⟩
      | true =>
        have h3' := hrlt h3
        have hpos2 : (check_rate_limit lim now s).2.position = s.position := by
          rw [h3']
          exact hppos
        have hnot2 : (check_rate_limit lim now s).2.notional = s.notional := by
          rw [h3']
          exact hpnot
        cases h4 : check_notional_limit lim (check_rate_limit lim now s).2 o with
        | false =>
          simp only [h1, h2, h3, h4, Bool.not_true, Bool.not_false, Bool.false_eq_true,
            if_false, if_true, ite_true, ite_false]
          refine ⟨by simp, by simp, by simp [h3'], ?_⟩
          intro _
          exact ⟨hpos2, hnot2⟩
        | true =>
          cases send_ok with
          | false =>
            simp only [h1, h2, h3, h4, Bool.not_true, Bool.not_false,
              Bool.false_eq_true, if_false, if_true, ite_true, ite_false]
            refine ⟨by simp, by simp, by simp, ?_⟩
            intro _
            exact ⟨hpos2, hnot2⟩
          | true =>
            simp only [h1, h2, h3, h4, Bool.not_true, Bool.not_false,
              Bool.false_eq_true, if_false, if_true, ite_true, ite_false]
            refine ⟨by simp, by simp, by simp, ?_⟩
            intro hne
            exact absurd rfl hne

/-- Counterexample for C2 as stated: with `max_notional = 50`, a buy of 10
at price 100 passes the first three checks and is rejected by the notional
check, yet the call has incremented the orders-in-current-second counter
(0 → 1) and advanced the last-second timestamp (0 → 2·10⁹ ns) — the state
is not left unchanged. -/
theorem submit_order_reject_state_cex :
    submit_order ⟨100, 1000, 50, 10⟩ 2000000000 true freshRiskState
        ⟨OrderSide.buy, 100, 10⟩ =
      (SubmitResult.rejNotionalLimit, ⟨0, 0, 1, 2000000000⟩) ∧
    (⟨0, 0, 1, 2000000000⟩ : RiskState) ≠ freshRiskState := by
  constructor
  · norm_num [submit_order, check_order_size, check_position_limit, projected_position,
      check_rate_limit, update_rate_limiter, check_notional_limit, freshRiskState, U64]
  · simp [freshRiskState]

/-- Witness for C2 (amended): a qty-101 order against `max_order_size = 100`
is rejected by the order-size check and the state is fully unchanged. -/
theorem submit_order_reject_state_witness :
    (submit_order ⟨100, 1000, 50, 10⟩ 0 true freshRiskState
        ⟨OrderSide.buy, 100, 101⟩).1 = SubmitResult.rejOrderSize ∧
    (submit_order ⟨100, 1000, 50, 10⟩ 0 true freshRiskState
        ⟨OrderSide.buy, 100, 101⟩).2 = freshRiskState :=
  ⟨by norm_num [submit_order, check_order_size],
   (submit_order_reject_state ⟨100, 1000, 50, 10⟩ 0 true freshRiskState
      ⟨OrderSide.buy, 100, 101⟩).1
     (Or.inl (by norm_num [submit_order, check_order_size]))⟩

/-- `k` successful allocations consume exactly `k` free slots. -/
lemma poolAllocN_count :
    ∀ (k : ℕ) (s : PoolState) (idxs : List ℕ) (ps : PoolState),
      poolAllocN k s = some (idxs, ps) →
      ps.free_count = s.free_count - k ∧ k ≤ s.free_count ∧ idxs.length = k := by
  intro k
  induction k with
  | zero =>
    intro s idxs ps h
    simp [poolAllocN] at h
    obtain ⟨h1, h2⟩ := h
    subst h1
    subst h2
    simp
  | succ k ih =>
    intro s idxs ps h
    unfold poolAllocN at h
    rcases ha : pool_allocate s with - | is'
    · rw [ha] at h
      simp at h
    · rw [ha] at h
      obtain ⟨i, s1⟩ := is'
      dsimp only at h
      rcases hb : poolAllocN k s1 with - | r
      · rw [hb] at h
        simp at h
      · rw [hb] at h
        simp only [Option.map_some', Option.some.injEq, Prod.mk.injEq] at h
        obtain ⟨hi, hp⟩ := h
        obtain ⟨hcount, hle, hlen⟩ := ih s1 r.1 r.2 (by rw [hb])
        have hs' : s1.free_count = s.free_count - 1 ∧ 0 < s.free_count := by
          unfold pool_allocate at ha
          by_cases hpos : 0 < s.free_count
          · rw [if_pos hpos] at ha
            simp only [Option.some.injEq, Prod.mk.injEq] at ha
            rw [← ha.2]
            exact ⟨rfl, hpos⟩
          · rw [if_neg hpos] at ha
            exact absurd ha (by simp)
        obtain ⟨hc1, hc2⟩ := hs'
        subst hp
        subst hi
        refine ⟨by omega, by omega, by simp [hlen]⟩

/-- Each deallocation returns one slot. -/
lemma poolDeallocAll_count :
    ∀ (js : List ℕ) (s : PoolState),
      (poolDeallocAll js s).free_count = s.free_count + js.length := by
  intro js
  induction js with
  | nil => intro s; simp [poolDeallocAll]
  | cons j js ih =>
    intro s
    show (poolDeallocAll js (pool_deallocate s j)).free_count = _
    rw [ih]
    show (s.free_count + 1) + js.length = s.free_count + (js.length + 1)
    omega

/-- Claim C8: after any `k` successful allocations followed by deallocation
of `k` pointers, `available()` returns to its pre-allocation value; in
particular a pool of capacity 100 that allocates 50 objects and deallocates
them all reports `available() = 100` both before and after the cycle. -/
theorem pool_alloc_dealloc_cycle :
    (∀ (k : ℕ) (s : PoolState) (idxs : List ℕ) (ps : PoolState),
      poolAllocN k s = some (idxs, ps) → ∀ js : List ℕ, js.length = k →
        pool_available (poolDeallocAll js ps) = pool_available s) ∧
    pool_available (poolInit 100) = 100 ∧
    (∃ r, poolAllocN 50 (poolInit 100) = some r ∧
      pool_available (poolDeallocAll r.1 r.2) = 100) := by
  have hgen : ∀ (k : ℕ) (s : PoolState) (idxs : List ℕ) (ps : PoolState),
      poolAllocN k s = some (idxs, ps) → ∀ js : List ℕ, js.length = k →
        pool_available (poolDeallocAll js ps) = pool_available s := by
    intro k s idxs ps h js hlen
    obtain ⟨hcount, hle, -⟩ := poolAllocN_count k s idxs ps h
    show (poolDeallocAll js ps).free_count = s.free_count
    rw [poolDeallocAll_count, hcount, hlen]
    omega
  refine ⟨hgen, rfl, ?_⟩
  obtain ⟨r, hr⟩ : ∃ r, poolAllocN 50 (poolInit 100) = some r :=
    Option.isSome_iff_exists.mp (by decide)
  refine ⟨r, hr, ?_⟩
  obtain ⟨-, -, hlen⟩ := poolAllocN_count 50 (poolInit 100) r.1 r.2 (by rw [hr])
  exact hgen 50 (poolInit 100) r.1 r.2 (by rw [hr]) r.1 hlen

/-- Witness for C8: a 3-slot pool, two allocations (returning slots 2 then
1), then deallocating two pointers restores `available() = 3`. -/
theorem pool_alloc_dealloc_cycle_witness :
    poolAllocN 2 (poolInit 3) =
      some ([2, 1], ⟨1, fun i => i,
        Function.update (Function.update (fun _ => false) 2 true) 1 true⟩) ∧
    ([5, 7] : List ℕ).length = 2 ∧
    pool_available (poolDeallocAll [5, 7]
      (⟨1, fun i => i,
        Function.update (Function.update (fun _ => false) 2 true) 1 true⟩ : PoolState)) = 3 :=
  ⟨by rfl, by rfl,
   pool_alloc_dealloc_cycle.1 2 (poolInit 3) [2, 1]
     ⟨1, fun i => i, Function.update (Function.update (fun _ => false) 2 true) 1 true⟩
     (by rfl) [5, 7] (by rfl)⟩

/-- Claim C1 is refuted by the source: the constructor initializes every
slot's sequence to 0 (slot 1 starts with `sequence = 0`, not `1`), and in
consequence, on a freshly constructed capacity-4 ring, the first push
succeeds but the second push already returns `false` (`diff = 0 - 1 < 0` is
taken as "buffer full"), instead of `N - 1 = 3` consecutive pushes
succeeding. -/
theorem mpsc_seq_init_bug :
    (mpscInit ℕ).seqs 1 = 0 ∧
    mpscPush2 4 2 (mpscInit ℕ) 7 8 = some (true, false) := by
  constructor
  · rfl
  · decide

end HFT
